import Mathlib

/-!
Verification of the render/refresh orchestration of the ESP32 Wiener Linien
departure display (`src/main.py`, `src/lib/display.py`, `src/lib/get_data.py`).

Shallow embedding conventions:
* MicroPython dictionaries holding the departure data are modelled as typed
  records (`Dep`, `Line`, `Stop`) where the shape is guaranteed by
  `transform_response`, and as a JSON-like tree (`JVal`) where the code
  validates the shape at runtime.
* Module-level mutable state (`_refresh_count`, `_arriving_indicator_state`,
  `_cached_departures`, the poll-loop locals of `start_main_loop`) becomes
  explicit state records threaded through step functions.
* `utime.time()` is modelled as one tick per loop iteration (each iteration of
  `start_main_loop` ends in `utime.sleep(1)`, and the early-`continue` branch
  sleeps 1 second itself).
* Exceptions are modelled with `Except`; a caught exception becomes a value.
-/

namespace WLDisplay

/-! ## Refresh-cycle controller (`src/lib/display.py`)

`_refresh_count` is the module-level counter; `epd.show()` is a full flush,
`epd.show_partial()` an incremental one.  `init_display` resets the counter to
0 and performs one full flush.  `write_to_display` ends with

    _refresh_count += 1
    if _refresh_count >= full_refresh_interval: epd.show(); _refresh_count = 0
    else: epd.show_partial()

`write_error_to_display` always calls `epd.show()` and resets the counter;
`write_start_msg_to_display` calls `epd.show_partial()` and leaves the counter
alone; `update_current_time` (when the minute changed) and `draw_wifi_status`
call `epd.show_partial()` and leave the counter alone.
-/

/-- Kind of flush issued to the e-paper driver: `epd.show()` (full) or
`epd.show_partial()` (incremental), or no flush at all (e.g.
`update_current_time` when the minute did not change). -/
inductive Flush where
  | full
  | inc
  | noFlush
deriving DecidableEq, Repr

/-- Display operations that touch the panel, as invoked by `main.py`. -/
inductive DispOp where
  /-- `write_to_display` with fresh data (a data redraw). -/
  | dataRedraw
  /-- `write_error_to_display`. -/
  | errorScreen
  /-- `write_start_msg_to_display`. -/
  | startupScreen
  /-- `update_current_time`; the argument records whether the minute changed
  (only then does it flush). -/
  | clockUpdate (minuteChanged : Bool)
  /-- `draw_wifi_status`. -/
  | statusUpdate
deriving DecidableEq, Repr

/-- Effect of one display operation on `_refresh_count`, together with the
flush it performs, for full-refresh interval `F` (`get_full_refresh_interval`).
Transcribed from `write_to_display` (display.py:297-306),
`write_error_to_display` (display.py:114-135), `write_start_msg_to_display`
(display.py:91-111), `update_current_time` (display.py:451-479) and
`draw_wifi_status` (display.py:389-407). -/
def dispStep (F : Nat) (c : Nat) : DispOp → Nat × Flush
  | .dataRedraw =>
      if c + 1 ≥ F then (0, .full) else (c + 1, .inc)
  | .errorScreen => (0, .full)
  | .startupScreen => (c, .inc)
  | .clockUpdate minuteChanged =>
      if minuteChanged then (c, .inc) else (c, .noFlush)
  | .statusUpdate => (c, .inc)

/-- Counter value after a sequence of display operations, starting from
counter `c` (after `init_display` we have `c = 0`). -/
def dispRun (F : Nat) (c : Nat) : List DispOp → Nat
  | [] => c
  | op :: ops => dispRun F (dispStep F c op).1 ops

/-- Flush trace of a sequence of display operations. -/
def dispFlushes (F : Nat) (c : Nat) : List DispOp → List Flush
  | [] => []
  | op :: ops => (dispStep F c op).2 :: dispFlushes F (dispStep F c op).1 ops

/-- Number of full flushes in a flush trace. -/
def countFull (l : List Flush) : Nat := l.countP (· = Flush.full)

/-- Counter after `init_display` (display.py:56-64): it is set to 0, after a
single mandatory full flush. -/
def initRefreshCount : Nat := 0

/-- Flushes performed by `init_display` itself: exactly one full flush. -/
def initFlushes : List Flush := [Flush.full]

/-! ## Poll loop (`start_main_loop`, `src/main.py`)

The loop locals `last_data_fetch`, `has_displayed_data`, `using_stale_data`
become a state record, together with the screen contents, the status LED and
whether `machine.reset()` has been invoked (`machine.reset` does not return,
so `restarted` is absorbing).  One loop iteration is one second of
`utime.time()` (both the normal path and the failed-fetch `continue` path
sleep one second).  Wi-Fi is modelled as connected throughout (the claims
under verification concern fetch failures, not link loss), and `get_data()`
is an oracle `Nat → Option Nat` giving for each second either `none` (fetch
failure: an exception, or `get_data` returning `None`) or `some d` for a
successfully fetched dataset identified by `d`. -/

/-- Screen contents as far as the poll loop controls them. -/
inductive Screen where
  | start
  | error
  | data (d : Nat)
deriving DecidableEq, Repr

/-- State of `start_main_loop` (main.py:89-178). -/
structure LoopState where
  lastDataFetch : Nat
  hasDisplayedData : Bool
  usingStaleData : Bool
  screen : Screen
  led : Bool
  restarted : Bool
deriving DecidableEq, Repr

/-- One iteration of the `while True` body of `start_main_loop`
(main.py:102-178) at time `t`, with data-refresh interval `R`
(`update_interval_sec`) and stale-restart threshold `TH`
(`stale_restart_threshold_sec`).  The fetch branch runs when
`current_time - last_data_fetch >= DATA_REFRESH_INTERVAL`; on a failed fetch
(main.py:139-149) the error screen is shown only if no data was ever
displayed, the stale flag and LED are raised, `last_data_fetch` is set to the
current time and `continue` skips the stale-restart check; on a successful
fetch the data is rendered and the flags cleared.  Outside the fetch branch,
the stale-restart check (main.py:162-165) calls `machine.reset()` when
`using_stale_data and current_time - last_data_fetch > STALE_RESTART_THRESHOLD`. -/
def loopStep (R TH : Nat) (oracle : Nat → Option Nat) (t : Nat) (s : LoopState) :
    LoopState :=
  if s.restarted then s
  else if R ≤ t - s.lastDataFetch then
    match oracle t with
    | none =>
        { s with
          screen := if s.hasDisplayedData then s.screen else Screen.error,
          usingStaleData := true,
          led := true,
          lastDataFetch := t }
    | some d =>
        { s with
          screen := Screen.data d,
          hasDisplayedData := true,
          usingStaleData := false,
          led := false,
          lastDataFetch := t }
  else if s.usingStaleData ∧ TH < t - s.lastDataFetch then
    { s with restarted := true }
  else s

/-- Run `n` consecutive loop iterations starting at time `t`. -/
def loopRun (R TH : Nat) (oracle : Nat → Option Nat) : Nat → Nat → LoopState → LoopState
  | 0, _, s => s
  | n + 1, t, s => loopRun R TH oracle n (t + 1) (loopStep R TH oracle t s)

/-- State right after a successful fetch rendered dataset `d` at time `t0`. -/
def afterSuccess (t0 d : Nat) : LoopState :=
  { lastDataFetch := t0
    hasDisplayedData := true
    usingStaleData := false
    screen := Screen.data d
    led := false
    restarted := false }

/-! ## Departure data model (`transform_response`, `src/lib/get_data.py`)

`transform_response` produces stops of the form
`{'name': ..., 'diva': ..., 'lines': [{'name', 'direction', 'towards',
'departures': [{'countdown': int}]}]}`; these dictionaries are modelled as
records.  Countdown values are integers as delivered by the API
(`departureTime.get('countdown', 0)`). -/

/-- A departure entry `{'countdown': n}`. -/
structure Dep where
  countdown : Int
deriving DecidableEq, Repr

/-- A line entry of a stop, as produced by `transform_response`. -/
structure Line where
  name : List Char
  direction : List Char
  towards : List Char
  departures : List Dep
deriving DecidableEq, Repr

/-- A stop entry, as produced by `transform_response`. -/
structure Stop where
  name : List Char
  diva : List Char
  lines : List Line
deriving DecidableEq, Repr

/-- Departure filter applied by `write_to_display` (display.py:236-241) to
each rendered row: U4 departures below a countdown of 6 are dropped; no other
line is filtered.  `line_name` is the group name of the row. -/
def filterDeps (line_name : List Char) (departures : List Dep) : List Dep :=
  if line_name = ['U', '4'] then
    departures.filter (fun d => d.countdown ≥ 6)
  else
    departures

/-- The countdown slots actually rendered for one row: the (possibly
filtered) departures, truncated to at most 4 (`departures[:4]`,
display.py:258). -/
def renderedDeps (line_name : List Char) (departures : List Dep) : List Dep :=
  (filterDeps line_name departures).take 4

/-! ## Arriving-now animation (`src/lib/display.py`) -/

/-- `_has_arriving_departures` (display.py:410-419): scans the first four raw
departures of every line of the cached dataset for a countdown of 0.  Note it
does not apply the U4 minimum-lead-time filter. -/
def _has_arriving_departures (data : Option (List Stop)) : Bool :=
  match data with
  | none => false
  | some stops =>
      stops.any fun stop =>
        stop.lines.any fun line =>
          (line.departures.take 4).any fun dep => dep.countdown = 0

/-- A dataset has a *visible* arriving departure when a countdown of 0 is
among the slots actually rendered by `write_to_display`: within the first
four departures *after* the per-line minimum-lead-time filter.  (This follows
the claim's wording, to be compared with `_has_arriving_departures`.) -/
def visibleArriving (stops : List Stop) : Bool :=
  stops.any fun stop =>
    stop.lines.any fun line =>
      (renderedDeps line.name line.departures).any fun dep => dep.countdown = 0

/-- `update_arriving_animation` (display.py:422-441) on the module state
`(_arriving_indicator_state, _cached_departures)`: returns the new flag value
and whether the display was redrawn from the cached data. -/
def update_arriving_animation (anim : Bool) (cached : Option (List Stop)) :
    Bool × Bool :=
  if _has_arriving_departures cached = false then (anim, false)
  else
    let newState := !anim
    match cached with
    | some _ => (newState, true)
    | none => (newState, false)

/-- Cached dataset for the C9 counterexample: a single U4 line with raw
departures `[0, 7, 8, 9]`.  The 0 is dropped by the U4 filter, so no rendered
slot shows an arriving departure. -/
def u4ArrivingStops : List Stop :=
  [{ name := [], diva := [],
     lines := [{ name := ['U', '4'], direction := ['R'], towards := [],
                 departures := [⟨0⟩, ⟨7⟩, ⟨8⟩, ⟨9⟩] }] }]

/-! ## Destination shortening (`_shorten_destination`, display.py:147-174)

Strings are modelled as `List Char`.  `str.upper` on MicroPython is
ASCII-only (non-ASCII characters, including umlauts, are left unchanged), so
`py_upper_char` maps only `'a'`-`'z'`.  `towards.split(',')[0]` keeps the
characters before the first comma; `.strip()` removes leading and trailing
whitespace; the chain of `str.replace` calls is modelled by `replace_char`,
each being a one-character-pattern replacement, i.e. a `flatMap`. -/

/-- MicroPython `str.upper`, per character: ASCII-only. -/
def py_upper_char (c : Char) : Char :=
  match c with
  | 'a' => 'A' | 'b' => 'B' | 'c' => 'C' | 'd' => 'D' | 'e' => 'E' | 'f' => 'F'
  | 'g' => 'G' | 'h' => 'H' | 'i' => 'I' | 'j' => 'J' | 'k' => 'K' | 'l' => 'L'
  | 'm' => 'M' | 'n' => 'N' | 'o' => 'O' | 'p' => 'P' | 'q' => 'Q' | 'r' => 'R'
  | 's' => 'S' | 't' => 'T' | 'u' => 'U' | 'v' => 'V' | 'w' => 'W' | 'x' => 'X'
  | 'y' => 'Y' | 'z' => 'Z'
  | other => other

/-- `str.upper` on a string. -/
def py_upper (s : List Char) : List Char := s.map py_upper_char

/-- Python `str.isspace` characters relevant to `.strip()`. -/
def py_isspace (c : Char) : Bool :=
  c == ' ' || c == '\t' || c == '\n' || c == '\x0b' || c == '\x0c' || c == '\r'

/-- Python `str.strip()`: drop leading and trailing whitespace. -/
def py_strip (s : List Char) : List Char :=
  (((s.dropWhile py_isspace).reverse).dropWhile py_isspace).reverse

/-- `towards.split(',')[0]`: the characters before the first comma. -/
def before_comma (s : List Char) : List Char := s.takeWhile (fun c => c != ',')

/-- Python `str.replace` with a single-character pattern. -/
def replace_char (pat : Char) (rep : List Char) (s : List Char) : List Char :=
  s.flatMap fun c => if c = pat then rep else [c]

/-- The chain of umlaut replacements of `_shorten_destination`
(display.py:171-172), in source order: ä→ae, ö→oe, ü→ue, Ä→Ae, Ö→Oe, Ü→Ue,
ß→ss. -/
def replace_umlauts (s : List Char) : List Char :=
  replace_char 'ß' ['s', 's']
    (replace_char 'Ü' ['U', 'e']
      (replace_char 'Ö' ['O', 'e']
        (replace_char 'Ä' ['A', 'e']
          (replace_char 'ü' ['u', 'e']
            (replace_char 'ö' ['o', 'e']
              (replace_char 'ä' ['a', 'e'] s))))))

/-- The abbreviation table hardcoded in `_shorten_destination`
(display.py:156-164).  (`get_destination_shortnames` in config.py is never
called; this dict is the operative table.) -/
def shortnames : List (List Char × List Char) :=
  [("HEILIGENSTADT".data, "Heiligenst.".data),
   ("ANSCHÜTZGASSE".data, "Anschuetzg.".data),
   ("UNTER ST. VEIT U".data, "Unter St. V.".data),
   ("WESTBAHNHOF S U".data, "Westbahnhof".data),
   ("HÜTTELDORF".data, "Hütteldorf".data),
   ("KLINIK PENZING".data, "Kl. Penzing".data),
   ("URBAN LORITZ PLATZ".data, "U. Loritz Pl.".data)]

/-- Dictionary lookup `shortnames[upper]` guarded by `upper in shortnames`. -/
def find_shortname (u : List Char) : List (List Char × List Char) → Option (List Char)
  | [] => none
  | (k, v) :: rest => if u = k then some v else find_shortname u rest

/-- `_shorten_destination` (display.py:147-174).  `none` models Python `None`
(the call sites use `line.get('towards', '')`); `if not towards` is true for
both `None` and the empty string. -/
def _shorten_destination (towards : Option (List Char)) : List Char :=
  match towards with
  | none => []
  | some s =>
      if s = [] then []
      else
        let t := py_strip (before_comma s)
        let t2 := match find_shortname (py_upper t) shortnames with
          | some v => v
          | none => t
        replace_umlauts t2

/-- The seven characters replaced by `replace_umlauts`. -/
def is_special (c : Char) : Bool :=
  c == 'ä' || c == 'ö' || c == 'ü' || c == 'Ä' || c == 'Ö' || c == 'Ü' || c == 'ß'

/-- Per-character view of the whole replacement chain (proved equal to
`replace_umlauts` in `replace_umlauts_eq_flatMap`): none of the replacement
strings contains a character replaced by a later step, so the sequential
passes act as one simultaneous substitution. -/
def subst_char (c : Char) : List Char :=
  if c = 'ä' then ['a', 'e'] else if c = 'ö' then ['o', 'e'] else if c = 'ü' then ['u', 'e']
  else if c = 'Ä' then ['A', 'e'] else if c = 'Ö' then ['O', 'e'] else if c = 'Ü' then ['U', 'e']
  else if c = 'ß' then ['s', 's'] else [c]

/-- Whether two given characters occur adjacently (in this order) in a
string. -/
def hasPair (a b : Char) : List Char → Bool
  | x :: y :: rest => (x == a && y == b) || hasPair a b (y :: rest)
  | _ => false

/-! ## Fetch validation and the poll-loop error boundary (`src/lib/get_data.py`)

The transformed response handed around by `get_data` is a MicroPython
dict/list tree, modelled by `JVal`.  `validate_response` (get_data.py:163-178)
validates its shape; note the source iterates `stop['lines']` without first
checking it is a list, so a non-list value raises there — modelled as
`Except.error`.  The printing loop of `get_data` (get_data.py:191-200)
accesses `line['name']` and iterates `line['departures']` and can likewise
raise; any such exception escapes `get_data` and is caught by the
`try/except` of `start_main_loop` (main.py:133-137), leaving `data = None`. -/

/-- JSON-like values as produced by `ujson.load`/`transform_response`. -/
inductive JVal where
  | null
  | bool (b : Bool)
  | num (n : Int)
  | str (s : List Char)
  | arr (l : List JVal)
  | obj (m : List (List Char × JVal))

/-- Python dict key access `m[k]`/`k in m` on an association list. -/
def jlookup (k : List Char) : List (List Char × JVal) → Option JVal
  | [] => none
  | (k', v) :: rest => if k = k' then some v else jlookup k rest

/-- Inner loop of `validate_response`: every line must be a dict with `name`
and `departures` keys. -/
def validateLines : List JVal → Except Unit Bool
  | [] => .ok true
  | line :: rest =>
      match line with
      | .obj m =>
          if (jlookup "name".data m).isNone || (jlookup "departures".data m).isNone then
            .ok false
          else validateLines rest
      | _ => .ok false

/-- Outer loop of `validate_response`: every stop must be a dict with a
`lines` key; iterating a non-list `stop['lines']` raises. -/
def validateStops : List JVal → Except Unit Bool
  | [] => .ok true
  | stop :: rest =>
      match stop with
      | .obj m =>
          match jlookup "lines".data m with
          | none => .ok false
          | some (.arr lines) => do
              let b ← validateLines lines
              if b then validateStops rest else pure false
          | some _ => .error ()
      | _ => .ok false

/-- `validate_response` (get_data.py:163-178). -/
def validate_response (v : JVal) : Except Unit Bool :=
  match v with
  | .obj m =>
      match jlookup "data".data m with
      | some (.arr stops) =>
          if (jlookup "localeTimestamp".data m).isNone then .ok false
          else validateStops stops
      | some _ => .ok false
      | none => .ok false
  | _ => .ok false

/-- `departure.get('countdown', '?')` raises on a non-dict element. -/
def printDeps : List JVal → Except Unit Unit
  | [] => .ok ()
  | d :: rest =>
      match d with
      | .obj _ => printDeps rest
      | _ => .error ()

/-- Per-line part of the debug-print loop of `get_data`. -/
def printLines : List JVal → Except Unit Unit
  | [] => .ok ()
  | line :: rest =>
      match line with
      | .obj m =>
          if (jlookup "name".data m).isNone then .error ()
          else
            match jlookup "departures".data m with
            | some (.arr deps) => do
                printDeps deps
                printLines rest
            | some _ => .error ()
            | none => .error ()
      | _ => .error ()

/-- Per-stop part of the debug-print loop of `get_data`. -/
def printStops : List JVal → Except Unit Unit
  | [] => .ok ()
  | stop :: rest =>
      match stop with
      | .obj m =>
          match jlookup "lines".data m with
          | some (.arr lines) => do
              printLines lines
              printStops rest
          | _ => .error ()
      | _ => .error ()

/-- The debug-print loop of `get_data` (get_data.py:194-198). -/
def printOutput (v : JVal) : Except Unit Unit :=
  match v with
  | .obj m =>
      match jlookup "data".data m with
      | some (.arr stops) => printStops stops
      | _ => .error ()
  | _ => .error ()

/-- Outcome of one HTTP fetch attempt: an exception anywhere inside
`make_request`'s `try` (network error, JSON parse error, transform error), or
an HTTP response with a status and the transformed payload. -/
inductive FetchOutcome where
  | raises
  | http (status : Nat) (v : JVal)

/-- `make_request` (get_data.py:205-265): every exception is caught and
returns `None`; a non-200 status returns `None`. -/
def make_request : FetchOutcome → Option JVal
  | .raises => none
  | .http status v => if status ≠ 200 then none else some v

/-- `get_data` (get_data.py:181-202): `None` stays `None`, failed validation
yields `None`, the print loop may raise. -/
def get_data (o : FetchOutcome) : Except Unit (Option JVal) :=
  match make_request o with
  | none => .ok none
  | some v => do
      let b ← validate_response v
      if b then do
        printOutput v
        pure (some v)
      else
        pure none

/-- The fetch as seen by the poll loop (main.py:132-137): `data = None`, then
`data = get_data()` inside `try/except`, so an exception leaves `None`. -/
def loopFetch (o : FetchOutcome) : Option JVal :=
  match get_data o with
  | .error _ => none
  | .ok r => r

/-! ## Line ordering and grouping (`write_to_display`, display.py:193-234)

`write_to_display` flattens all lines of all stops, sorts them with Python's
stable `sorted` under the key
`(name not in priority_order, priority_order.index(name) or 999,
direction != 'R', name)`, groups them by line name (a dict of lists, appended
in sorted order, i.e. each group is the sorted list filtered to that name),
and renders the groups in order of their first occurrence in the sorted list.
Python's stable sort is modelled as the unique permutation sorted by the
strict lexicographic order on (key, original index): `sortLines` decorates
with `List.enum` and applies insertion sort under that total order. -/

/-- Python `False < True` on booleans. -/
def boolLt (a b : Bool) : Bool := !a && b

/-- Python string `<`: lexicographic on code points. -/
def chListLt : List Char → List Char → Bool
  | [], [] => false
  | [], _ :: _ => true
  | _ :: _, [] => false
  | a :: as, b :: bs =>
      if a.toNat < b.toNat then true
      else if b.toNat < a.toNat then false
      else chListLt as bs

/-- Python `list.index` (first occurrence); call sites guard membership. -/
def pyIndex (x : List Char) : List (List Char) → Nat
  | [] => 0
  | y :: rest => if x = y then 0 else pyIndex x rest + 1

/-- The sort-key tuple of display.py:200-205. -/
abbrev SortKey := Bool × Nat × Bool × List Char

/-- `(line['name'] not in priority_order, priority_order.index(...) or 999,
line.get('direction', '') != 'R', line['name'])`. -/
def sortKey (priority_order : List (List Char)) (line : Line) : SortKey :=
  (decide (line.name ∉ priority_order),
   if line.name ∈ priority_order then pyIndex line.name priority_order else 999,
   decide (line.direction ≠ ['R']),
   line.name)

/-- Python tuple `<` on sort keys. -/
def keyLt : SortKey → SortKey → Bool
  | (f1, i1, d1, n1), (f2, i2, d2, n2) =>
      if f1 ≠ f2 then boolLt f1 f2
      else if i1 ≠ i2 then decide (i1 < i2)
      else if d1 ≠ d2 then boolLt d1 d2
      else chListLt n1 n2

/-- Total order on index-decorated lines: by key, ties broken by original
position — the defining property of a stable sort. -/
def decoratedLe (po : List (List Char)) (p q : Nat × Line) : Prop :=
  (keyLt (sortKey po p.2) (sortKey po q.2)
    || (sortKey po p.2 == sortKey po q.2 && p.1 ≤ q.1)) = true

instance (po : List (List Char)) : DecidableRel (decoratedLe po) := by
  intro p q
  unfold decoratedLe
  infer_instance

/-- Python `sorted(lines, key=...)`: the stable sort by `sortKey`. -/
def sortLines (po : List (List Char)) (lines : List Line) : List Line :=
  (List.insertionSort (decoratedLe po) lines.enum).map Prod.snd

/-- `group_order`/`seen` (display.py:218-222): line names in order of first
appearance. -/
def firstSeen (names : List (List Char)) : List (List Char) :=
  names.foldl (fun acc x => if x ∈ acc then acc else acc ++ [x]) []

/-- The sequence of rows rendered by `write_to_display` (display.py:194-236):
flatten, sort, then render the name groups in first-occurrence order, each
group being the sorted rows of that name. -/
def renderRows (po : List (List Char)) (stops : List Stop) : List Line :=
  let lines := stops.flatMap Stop.lines
  let sorted := sortLines po lines
  (firstSeen (sorted.map Line.name)).flatMap
    (fun n => sorted.filter (fun l => l.name = n))

/-- Line `A`, direction `H` (C2 counterexample). -/
def lineAH : Line := { name := ['A'], direction := ['H'], towards := [], departures := [] }

/-- Line `A`, direction `R` (C2 counterexample). -/
def lineAR : Line := { name := ['A'], direction := ['R'], towards := [], departures := [] }

/-- Line `B`, direction `R` (C2 counterexample). -/
def lineBR : Line := { name := ['B'], direction := ['R'], towards := [], departures := [] }

/-- One stop carrying the three counterexample lines. -/
def cexStops : List Stop := [{ name := [], diva := [], lines := [lineAH, lineAR, lineBR] }]

/-- The priority order of spec scenario A. -/
def scenarioPO : List (List Char) := ["49".data, "N49".data, "U4".data]

/-- A stop with a single line, for scenario A. -/
def mkStop (sn sd n d t : List Char) (ds : List Dep) : Stop :=
  { name := sn, diva := sd,
    lines := [{ name := n, direction := d, towards := t, departures := ds }] }

/-! ## Theorems -/

theorem dispRun_data_succ (F c : Nat) (ops : List DispOp) :
    dispRun F c (DispOp.dataRedraw :: ops)
      = dispRun F (if c + 1 ≥ F then 0 else c + 1) ops := by
  by_cases h : F ≤ c + 1 <;> simp [dispRun, dispStep, h]

/-- Counter after `k` consecutive data redraws from counter 0 is `k % F`. -/
theorem dispRun_replicate_data (F : Nat) (hF : 1 ≤ F) (k : Nat) :
    dispRun F 0 (List.replicate k DispOp.dataRedraw) = k % F := by
  suffices h : ∀ k c, c < F →
      dispRun F c (List.replicate k DispOp.dataRedraw) = (c + k) % F by
    have := h k 0 hF
    simpa using this
  intro k
  induction k with
  | zero =>
      intro c hc
      simp [dispRun, Nat.mod_eq_of_lt hc]
  | succ n ih =>
      intro c hc
      rw [List.replicate_succ, dispRun_data_succ]
      by_cases h : c + 1 ≥ F
      · have hcF : c + 1 = F := Nat.le_antisymm (Nat.succ_le_of_lt hc) h
        rw [if_pos h, ih 0 hF]
        have : c + (n + 1) = F + n := by omega
        rw [this, Nat.add_mod_left]
        simp
      · rw [if_neg h, ih (c + 1) (by omega)]
        congr 1
        omega

/-- Number of full flushes among `k` consecutive data redraws started at
counter `c < F` equals `(c + k) / F`. -/
theorem countFull_replicate_data (F : Nat) (hF : 1 ≤ F) (k : Nat) :
    ∀ c, c < F →
      countFull (dispFlushes F c (List.replicate k DispOp.dataRedraw))
        = (c + k) / F := by
  induction k with
  | zero =>
      intro c hc
      simp [dispFlushes, countFull, Nat.div_eq_of_lt hc]
  | succ n ih =>
      intro c hc
      rw [List.replicate_succ]
      by_cases h : c + 1 ≥ F
      · have h2 : countFull (dispFlushes F c
            (DispOp.dataRedraw :: List.replicate n DispOp.dataRedraw))
            = 1 + countFull (dispFlushes F 0 (List.replicate n DispOp.dataRedraw)) := by
          simp [dispFlushes, dispStep, if_pos h, countFull]
          omega
        rw [h2, ih 0 hF, Nat.zero_add]
        have hc1 : c + (n + 1) = n + F := by omega
        rw [hc1, Nat.add_div_right n hF]
        omega
      · have h2 : countFull (dispFlushes F c
            (DispOp.dataRedraw :: List.replicate n DispOp.dataRedraw))
            = countFull (dispFlushes F (c + 1) (List.replicate n DispOp.dataRedraw)) := by
          simp [dispFlushes, dispStep, if_neg h, countFull]
        rw [h2, ih (c + 1) (by omega)]
        congr 1
        omega

/-- Every flush issued by a data redraw is either full or incremental (never
absent): `write_to_display` always ends in `epd.show()` or
`epd.show_partial()`. -/
theorem dispFlushes_data_mem (F : Nat) :
    ∀ (k c : Nat) (f : Flush),
      f ∈ dispFlushes F c (List.replicate k DispOp.dataRedraw) →
        f = Flush.full ∨ f = Flush.inc := by
  intro k
  induction k with
  | zero => intro c f hf; simp [dispFlushes] at hf
  | succ n ih =>
      intro c f hf
      rw [List.replicate_succ] at hf
      simp only [dispFlushes, List.mem_cons] at hf
      rcases hf with hf | hf
      · by_cases h : F ≤ c + 1 <;> simp [dispStep, h] at hf <;> simp [hf]
      · exact ih _ f hf

/-- `dispStep` keeps the counter strictly below the full-refresh interval. -/
theorem dispStep_lt (F : Nat) (hF : 1 ≤ F) (c : Nat) (hc : c < F) (op : DispOp) :
    (dispStep F c op).1 < F := by
  cases op with
  | dataRedraw =>
      by_cases h : F ≤ c + 1 <;> simp [dispStep, h] <;> omega
  | errorScreen => simpa [dispStep] using hF
  | startupScreen => simpa [dispStep] using hc
  | clockUpdate b => cases b <;> simpa [dispStep] using hc
  | statusUpdate => simpa [dispStep] using hc

/-- `dispRun` keeps the counter strictly below the full-refresh interval. -/
theorem dispRun_lt (F : Nat) (hF : 1 ≤ F) :
    ∀ (ops : List DispOp) (c : Nat), c < F → dispRun F c ops < F := by
  intro ops
  induction ops with
  | nil => intro c hc; simpa [dispRun] using hc
  | cons op rest ih =>
      intro c hc
      exact ih _ (dispStep_lt F hF c hc op)

/-- Claim C3: starting from `init_display` (counter 0, one mandatory full
flush), a run of `k` consecutive successful data redraws with full-refresh
interval `F ≥ 1` performs exactly `k / F` full flushes (so `k / F + 1`
counting the startup flush), every other redraw flush is incremental, each
data redraw advances the counter (counter after `k` redraws is `k % F`),
clock-only and status-only updates never change the counter and never issue a
full flush, and for `k = 41`, `F = 40` the total number of full flushes
including the startup flush is exactly 2. -/
theorem write_to_display_full_refresh_policy (F k : Nat) (hF : 1 ≤ F) :
    countFull (dispFlushes F initRefreshCount (List.replicate k DispOp.dataRedraw))
        = k / F
    ∧ countFull initFlushes = 1
    ∧ (∀ f ∈ dispFlushes F initRefreshCount (List.replicate k DispOp.dataRedraw),
        f = Flush.full ∨ f = Flush.inc)
    ∧ dispRun F initRefreshCount (List.replicate k DispOp.dataRedraw) = k % F
    ∧ (∀ (c : Nat) (b : Bool),
        dispStep F c (DispOp.clockUpdate b) = (c, if b then Flush.inc else Flush.noFlush)
        ∧ dispStep F c DispOp.statusUpdate = (c, Flush.inc))
    ∧ countFull (initFlushes
        ++ dispFlushes 40 initRefreshCount (List.replicate 41 DispOp.dataRedraw)) = 2 := by
  refine ⟨?_, rfl, dispFlushes_data_mem F k initRefreshCount, ?_, ?_, by decide⟩
  · have := countFull_replicate_data F hF k 0 hF
    simpa [initRefreshCount] using this
  · simpa [initRefreshCount] using dispRun_replicate_data F hF k
  · intro c b
    cases b <;> exact ⟨rfl, rfl⟩

/-- Witness for `write_to_display_full_refresh_policy` at `F = 40`,
`k = 41`. -/
theorem write_to_display_full_refresh_policy_app :
    countFull (dispFlushes 40 initRefreshCount (List.replicate 41 DispOp.dataRedraw))
      = 41 / 40 :=
  (write_to_display_full_refresh_policy 40 41 (by decide)).1

/-- Claim C8: the refresh counter starts at 0 at `init_display`, and after any
sequence of display operations (data redraws, error screens, startup screens,
clock/status updates) with full-refresh interval `F ≥ 1` the counter is
strictly less than `F` (hence in `[0, F)`). -/
theorem refresh_count_lt_interval (F : Nat) (hF : 1 ≤ F) (ops : List DispOp) :
    initRefreshCount = 0 ∧ dispRun F initRefreshCount ops < F :=
  ⟨rfl, dispRun_lt F hF ops initRefreshCount (by simpa [initRefreshCount] using hF)⟩

/-- Witness for `refresh_count_lt_interval` at `F = 1` on a concrete operation
sequence exercising every kind of display operation. -/
theorem refresh_count_lt_interval_app :
    initRefreshCount = 0
    ∧ dispRun 1 initRefreshCount
        [DispOp.dataRedraw, DispOp.errorScreen, DispOp.startupScreen,
         DispOp.clockUpdate true, DispOp.clockUpdate false, DispOp.statusUpdate,
         DispOp.dataRedraw] < 1 :=
  refresh_count_lt_interval 1 (by decide) _

set_option maxRecDepth 4000 in
/-- Claim C1 (failing-input evaluation): with `update_interval_sec = 10` and
`stale_restart_threshold_sec = 20`, after a successful fetch at `t = 0` and
`get_data` failing at every later second, 50 iterations of the poll loop
(covering far more than threshold + 1 = 21 seconds of continuous failure)
trigger no restart at all, with the loop stuck on stale data.  The claim (and
spec scenario D) expects exactly one restart as soon as the time since the
last successful fetch exceeds 20 s: the code instead resets `last_data_fetch`
on every failed fetch (main.py:147) and `continue`s past the stale check
(main.py:149), so `current_time - last_data_fetch` measures the time since the
last fetch attempt and never exceeds `R - 1 = 9 < 20` at the check. -/
theorem stale_restart_never_fires :
    (loopRun 10 20 (fun _ => none) 50 1 (afterSuccess 0 7)).restarted = false
    ∧ (loopRun 10 20 (fun _ => none) 50 1 (afterSuccess 0 7)).usingStaleData = true
    ∧ (loopRun 10 20 (fun _ => none) 50 1 (afterSuccess 0 7)).screen = Screen.data 7 := by
  decide

/-- `loopStep` never clears `has_displayed_data`. -/
theorem loopStep_hasDisplayedData (R TH t : Nat) (oracle : Nat → Option Nat)
    (s : LoopState) (hd : s.hasDisplayedData = true) :
    (loopStep R TH oracle t s).hasDisplayedData = true := by
  unfold loopStep
  by_cases hr : s.restarted <;> by_cases hf : R ≤ t - s.lastDataFetch <;>
    simp [hr, hf, hd]
  · cases oracle t <;> simp [hd]
  · split <;> simp [hd]

/-- On a failed fetch, `loopStep` leaves the screen untouched once data has
ever been displayed. -/
theorem loopStep_screen_of_fail (R TH t : Nat) (oracle : Nat → Option Nat)
    (s : LoopState) (hd : s.hasDisplayedData = true) (hfail : oracle t = none) :
    (loopStep R TH oracle t s).screen = s.screen := by
  unfold loopStep
  by_cases hr : s.restarted <;> by_cases hf : R ≤ t - s.lastDataFetch <;>
    simp [hr, hf, hfail, hd]
  split <;> simp

/-- Under a permanently failing oracle, the screen never changes once data has
been displayed, over any number of loop iterations. -/
theorem loopRun_screen_of_fail (R TH : Nat) (oracle : Nat → Option Nat)
    (hfail : ∀ u, oracle u = none) :
    ∀ (n t0 : Nat) (s : LoopState), s.hasDisplayedData = true →
      (loopRun R TH oracle n t0 s).screen = s.screen := by
  intro n
  induction n with
  | zero => intro t0 s _; rfl
  | succ m ih =>
      intro t0 s hd
      have h1 := loopStep_screen_of_fail R TH t0 oracle s hd (hfail t0)
      have h2 := loopStep_hasDisplayedData R TH t0 oracle s hd
      calc (loopRun R TH oracle (m + 1) t0 s).screen
          = (loopRun R TH oracle m (t0 + 1) (loopStep R TH oracle t0 s)).screen := rfl
        _ = (loopStep R TH oracle t0 s).screen := ih (t0 + 1) _ h2
        _ = s.screen := h1

/-- Claim C5: once any data has been displayed, a failed fetch never replaces
the screen contents: (1) the screen is unchanged by a loop iteration whose
fetch fails; (2) when the failed fetch actually runs (fetch interval elapsed,
no restart pending), only the stale flag and the LED are raised; (3) an error
screen can only appear when no data has ever been displayed; (4) under a
permanently failing oracle the screen stays on the last rendered data for any
number of iterations. -/
theorem stale_data_preserved_on_failure (R TH t : Nat) (oracle : Nat → Option Nat)
    (s : LoopState) (hfail : ∀ u, oracle u = none) :
    (s.hasDisplayedData = true → (loopStep R TH oracle t s).screen = s.screen)
    ∧ (s.hasDisplayedData = true → s.restarted = false → R ≤ t - s.lastDataFetch →
        (loopStep R TH oracle t s).usingStaleData = true
        ∧ (loopStep R TH oracle t s).led = true
        ∧ (loopStep R TH oracle t s).screen = s.screen)
    ∧ ((loopStep R TH oracle t s).screen = Screen.error →
        s.screen = Screen.error ∨ s.hasDisplayedData = false)
    ∧ (s.hasDisplayedData = true → ∀ n t0, (loopRun R TH oracle n t0 s).screen = s.screen) := by
  refine ⟨fun hd => loopStep_screen_of_fail R TH t oracle s hd (hfail t), ?_, ?_, ?_⟩
  · intro hd hr hdue
    refine ⟨?_, ?_, loopStep_screen_of_fail R TH t oracle s hd (hfail t)⟩ <;>
      simp [loopStep, hr, hdue, hfail t]
  · intro herr
    by_cases hd : s.hasDisplayedData
    · exact Or.inl (loopStep_screen_of_fail R TH t oracle s hd (hfail t) ▸ herr)
    · exact Or.inr (by simpa using hd)
  · intro hd n t0
    exact loopRun_screen_of_fail R TH oracle hfail n t0 s hd

/-- Witness for `stale_data_preserved_on_failure` at a concrete state: a
failed fetch at time 3 keeps dataset 2 on screen. -/
theorem stale_data_preserved_on_failure_app :
    (loopStep 1 5 (fun _ => none) 3 (afterSuccess 0 2)).screen
      = (afterSuccess 0 2).screen :=
  (stale_data_preserved_on_failure 1 5 3 (fun _ => none) (afterSuccess 0 2)
    (fun _ => rfl)).1 rfl

/-- Claim C6 (counterexample): for U4 with five departures all at countdown
`≥ 6`, the rendered slots are only the first four of them, so the displayed
departures are not "exactly the input departures with countdown ≥ 6". -/
theorem u4_rendered_not_all_qualifying :
    renderedDeps ['U', '4'] [⟨6⟩, ⟨7⟩, ⟨8⟩, ⟨9⟩, ⟨10⟩]
      ≠ List.filter (fun d => decide (d.countdown ≥ 6)) [⟨6⟩, ⟨7⟩, ⟨8⟩, ⟨9⟩, ⟨10⟩] := by
  decide

/-- Claim C6 (amended): the rendered departures of a U4 row are exactly the
first at most four input departures with countdown ≥ 6; consequently no
rendered U4 countdown is ever below 6; the rule is per-line (every other line
is not filtered, only truncated to four slots); and U4 departures
`[2, 5, 8, 12]` render as `[8, 12]`. -/
theorem u4_min_lead_time_filter :
    (∀ deps : List Dep,
        renderedDeps ['U', '4'] deps
          = (deps.filter (fun d => d.countdown ≥ 6)).take 4)
    ∧ (∀ (deps : List Dep) (d : Dep), d ∈ renderedDeps ['U', '4'] deps → d.countdown ≥ 6)
    ∧ (∀ (name : List Char) (deps : List Dep),
        name ≠ ['U', '4'] → renderedDeps name deps = deps.take 4)
    ∧ renderedDeps ['U', '4'] [⟨2⟩, ⟨5⟩, ⟨8⟩, ⟨12⟩] = [⟨8⟩, ⟨12⟩] := by
  refine ⟨fun deps => rfl, ?_, ?_, by decide⟩
  · intro deps d hd
    have h1 : d ∈ List.filter (fun d => decide (d.countdown ≥ 6)) deps :=
      List.take_subset 4 _ hd
    simpa using List.of_mem_filter h1
  · intro name deps hname
    simp [renderedDeps, filterDeps, hname]

/-- Witness for `u4_min_lead_time_filter`: line 49 is not filtered. -/
theorem u4_min_lead_time_filter_app :
    renderedDeps ['4', '9'] [⟨2⟩, ⟨5⟩] = [⟨2⟩, ⟨5⟩] :=
  u4_min_lead_time_filter.2.2.1 ['4', '9'] [⟨2⟩, ⟨5⟩] (by decide)

/-- Claim C9 (counterexample): with the cached dataset `u4ArrivingStops` no
visible (rendered) departure has countdown 0, yet an animation tick still
toggles the flag and redraws the display, because `_has_arriving_departures`
inspects the raw first four departures without the U4 filter. -/
theorem animation_toggles_without_visible_arrival :
    visibleArriving u4ArrivingStops = false
    ∧ update_arriving_animation false (some u4ArrivingStops) = (true, true) := by
  decide

/-- Claim C9 (amended): an animation tick toggles the flag (and redraws from
the cache) exactly when some departure among the first four *raw* departures
of a line of the cached dataset — before the per-line minimum-lead-time
filter — has countdown 0; when no such departure exists the flag and the
display are left unchanged. -/
theorem update_arriving_animation_spec (anim : Bool) (cached : Option (List Stop)) :
    (_has_arriving_departures cached = false →
        update_arriving_animation anim cached = (anim, false))
    ∧ (_has_arriving_departures cached = true →
        (update_arriving_animation anim cached).1 = !anim
        ∧ (update_arriving_animation anim cached).2 = true)
    ∧ (_has_arriving_departures cached = true ↔
        ∃ stops, cached = some stops ∧ ∃ stop ∈ stops, ∃ line ∈ stop.lines,
          ∃ dep ∈ line.departures.take 4, dep.countdown = 0) := by
  refine ⟨fun h => by simp [update_arriving_animation, h], ?_, ?_⟩
  · intro h
    cases cached with
    | none => simp [_has_arriving_departures] at h
    | some stops => simp [update_arriving_animation, h]
  · cases cached with
    | none => simp [_has_arriving_departures]
    | some stops => simp [_has_arriving_departures, List.any_eq_true]

/-! ### Destination shortening: lemmas and claims -/

theorem replace_umlauts_append (s t : List Char) :
    replace_umlauts (s ++ t) = replace_umlauts s ++ replace_umlauts t := by
  simp [replace_umlauts, replace_char, List.flatMap_append]

theorem replace_umlauts_single (a : Char) : replace_umlauts [a] = subst_char a := by
  by_cases h1 : a = 'ä'
  · subst h1; decide
  by_cases h2 : a = 'ö'
  · subst h2; decide
  by_cases h3 : a = 'ü'
  · subst h3; decide
  by_cases h4 : a = 'Ä'
  · subst h4; decide
  by_cases h5 : a = 'Ö'
  · subst h5; decide
  by_cases h6 : a = 'Ü'
  · subst h6; decide
  by_cases h7 : a = 'ß'
  · subst h7; decide
  simp [replace_umlauts, replace_char, subst_char, h1, h2, h3, h4, h5, h6, h7]

/-- The sequential replacement chain equals the simultaneous per-character
substitution. -/
theorem replace_umlauts_eq_flatMap (s : List Char) :
    replace_umlauts s = s.flatMap subst_char := by
  induction s with
  | nil => rfl
  | cons a rest ih =>
      have : a :: rest = [a] ++ rest := rfl
      rw [this, replace_umlauts_append, ih, replace_umlauts_single, List.flatMap_append]
      simp

theorem subst_char_ne_nil (a : Char) : subst_char a ≠ [] := by
  unfold subst_char
  split_ifs <;> simp

theorem subst_char_no_special (a c : Char) (h : c ∈ subst_char a) :
    is_special c = false := by
  unfold subst_char at h
  split_ifs at h <;> simp at h <;>
    first
      | (subst h; decide)
      | (cases h <;> rename_i h <;> subst h <;> decide)
      | (subst h; simp_all [is_special])

theorem subst_char_eq_self (a : Char) (h : is_special a = false) : subst_char a = [a] := by
  simp [is_special] at h
  obtain ⟨⟨⟨⟨⟨⟨h1, h2⟩, h3⟩, h4⟩, h5⟩, h6⟩, h7⟩ := h
  simp [subst_char, h1, h2, h3, h4, h5, h6, h7]

theorem flatMap_subst_eq_self (t : List Char) (h : ∀ a ∈ t, is_special a = false) :
    t.flatMap subst_char = t := by
  induction t with
  | nil => rfl
  | cons a rest ih =>
      rw [List.flatMap_cons, subst_char_eq_self a (h a (List.mem_cons_self a rest)),
        ih (fun b hb => h b (List.mem_cons_of_mem a hb))]
      rfl

/-- No character of the output of `replace_umlauts` is one of the seven
replaced characters. -/
theorem replace_umlauts_no_special (t : List Char) (c : Char)
    (h : c ∈ replace_umlauts t) : is_special c = false := by
  rw [replace_umlauts_eq_flatMap] at h
  rw [List.mem_flatMap] at h
  obtain ⟨a, _, hc⟩ := h
  exact subst_char_no_special a c hc

theorem replace_umlauts_eq_self (t : List Char) (h : ∀ a ∈ t, is_special a = false) :
    replace_umlauts t = t := by
  rw [replace_umlauts_eq_flatMap]
  exact flatMap_subst_eq_self t h

theorem subst_char_not_space (a c : Char) (ha : py_isspace a = false)
    (h : c ∈ subst_char a) : py_isspace c = false := by
  unfold subst_char at h
  split_ifs at h <;> simp at h <;>
    first
      | (subst h; decide)
      | (cases h <;> rename_i h <;> subst h <;> decide)
      | (subst h; exact ha)

theorem subst_char_not_comma (a c : Char) (ha : a ≠ ',')
    (h : c ∈ subst_char a) : c ≠ ',' := by
  unfold subst_char at h
  split_ifs at h <;> simp at h <;>
    first
      | (subst h; decide)
      | (cases h <;> rename_i h <;> subst h <;> decide)
      | (subst h; exact ha)

theorem head?_flatMap_subst (t : List Char) (c : Char)
    (h : (t.flatMap subst_char).head? = some c) :
    ∃ a, t.head? = some a ∧ c ∈ subst_char a := by
  cases t with
  | nil => simp at h
  | cons a rest =>
      refine ⟨a, rfl, ?_⟩
      rw [List.flatMap_cons] at h
      obtain ⟨b, bs, hb⟩ := List.exists_cons_of_ne_nil (subst_char_ne_nil a)
      rw [hb] at h
      simp at h
      rw [hb, h]
      exact List.mem_cons_self c bs

theorem getLast?_flatMap_subst (t : List Char) (c : Char)
    (h : (t.flatMap subst_char).getLast? = some c) :
    ∃ a, t.getLast? = some a ∧ c ∈ subst_char a := by
  rw [List.getLast?_eq_head?_reverse, List.reverse_flatMap] at h
  cases ht : t.reverse with
  | nil =>
      rw [ht] at h
      simp at h
  | cons a rest =>
      have hlast : t.getLast? = some a := by
        rw [List.getLast?_eq_head?_reverse, ht]
        rfl
      refine ⟨a, hlast, ?_⟩
      rw [ht, List.flatMap_cons] at h
      simp only [Function.comp_apply] at h
      have hne : (subst_char a).reverse ≠ [] := by
        rw [ne_eq, List.reverse_eq_nil_iff]
        exact subst_char_ne_nil a
      obtain ⟨b, bs, hb⟩ := List.exists_cons_of_ne_nil hne
      rw [hb] at h
      simp at h
      have : c ∈ (subst_char a).reverse := by
        rw [hb, h]
        exact List.mem_cons_self c bs
      simpa [List.mem_reverse] using this

theorem head?_dropWhile_not (p : Char → Bool) (l : List Char) (c : Char)
    (h : (l.dropWhile p).head? = some c) : p c = false := by
  induction l with
  | nil => simp at h
  | cons a rest ih =>
      rw [List.dropWhile_cons] at h
      by_cases hp : p a
      · rw [if_pos hp] at h
        exact ih h
      · rw [if_neg hp] at h
        simp at h
        rw [← h]
        simpa using hp

theorem dropWhile_eq_self_of_head (p : Char → Bool) (l : List Char)
    (h : ∀ c, l.head? = some c → p c = false) : l.dropWhile p = l := by
  cases l with
  | nil => rfl
  | cons a rest =>
      rw [List.dropWhile_cons, if_neg]
      simp [h a rfl]

theorem py_strip_getLast (s : List Char) (c : Char)
    (h : (py_strip s).getLast? = some c) : py_isspace c = false := by
  unfold py_strip at h
  rw [List.getLast?_reverse] at h
  exact head?_dropWhile_not _ _ _ h

theorem py_strip_head (s : List Char) (c : Char)
    (h : (py_strip s).head? = some c) : py_isspace c = false := by
  unfold py_strip at h
  rw [List.head?_reverse] at h
  have hsuf : List.dropWhile py_isspace ((List.dropWhile py_isspace s).reverse)
      <:+ (List.dropWhile py_isspace s).reverse := List.dropWhile_suffix _
  obtain ⟨pre, hpre⟩ := hsuf
  have hne : List.dropWhile py_isspace ((List.dropWhile py_isspace s).reverse) ≠ [] := by
    intro h0
    rw [h0] at h
    simp at h
  have hL : (pre ++ List.dropWhile py_isspace
      ((List.dropWhile py_isspace s).reverse)).getLast? = some c := by
    rw [List.getLast?_append_of_ne_nil _ hne]
    exact h
  rw [hpre, List.getLast?_reverse] at hL
  exact head?_dropWhile_not _ _ _ hL

theorem py_strip_eq_self (y : List Char)
    (hhead : ∀ c, y.head? = some c → py_isspace c = false)
    (hlast : ∀ c, y.getLast? = some c → py_isspace c = false) : py_strip y = y := by
  unfold py_strip
  rw [dropWhile_eq_self_of_head _ _ hhead]
  rw [dropWhile_eq_self_of_head _ _ ?_]
  · exact List.reverse_reverse y
  · intro c hc
    rw [List.head?_reverse] at hc
    exact hlast c hc

theorem before_comma_eq_self (y : List Char) (h : ∀ c ∈ y, c ≠ ',') :
    before_comma y = y := by
  unfold before_comma
  induction y with
  | nil => rfl
  | cons a rest ih =>
      rw [List.takeWhile_cons, if_pos (by simp [h a (List.mem_cons_self a rest)])]
      rw [ih (fun b hb => h b (List.mem_cons_of_mem a hb))]

theorem mem_before_comma (y : List Char) (c : Char) (h : c ∈ before_comma y) :
    c ≠ ',' := by
  have := List.mem_takeWhile_imp h
  simpa using this

theorem mem_py_strip (s : List Char) (c : Char) (h : c ∈ py_strip s) : c ∈ s := by
  unfold py_strip at h
  rw [List.mem_reverse] at h
  have h1 := List.dropWhile_subset _ h
  rw [List.mem_reverse] at h1
  exact List.dropWhile_subset _ h1

theorem hasPair_cons (a b x : Char) (l : List Char) (h : hasPair a b l = true) :
    hasPair a b (x :: l) = true := by
  cases l with
  | nil => simp [hasPair] at h
  | cons y rest =>
      show ((x == a && y == b) || hasPair a b (y :: rest)) = true
      simp [h]

theorem hasPair_append_left (a b : Char) (xs l : List Char)
    (h : hasPair a b l = true) : hasPair a b (xs ++ l) = true := by
  induction xs with
  | nil => simpa using h
  | cons x xs ih =>
      rw [List.cons_append]
      exact hasPair_cons a b x _ ih

theorem hasPair_front (a b : Char) (l : List Char) :
    hasPair a b (a :: b :: l) = true := by
  show ((a == a && b == b) || hasPair a b (b :: l)) = true
  simp

theorem upper_no_special (c : Char) (h : is_special c = false) :
    is_special (py_upper_char c) = false := by
  unfold py_upper_char
  split <;> first | rfl | exact h

theorem flatMap_subst_no_special (t : List Char) (c : Char)
    (h : c ∈ t.flatMap subst_char) : is_special c = false := by
  rw [List.mem_flatMap] at h
  obtain ⟨a, _, hc⟩ := h
  exact subst_char_no_special a c hc

/-- If `t` contains a replaced character, the uppercased substituted string
contains one of the adjacent pairs AE, OE, UE, SS. -/
theorem flatMap_special_pair (t : List Char) (a : Char) (ha : a ∈ t)
    (hsp : is_special a = true) :
    hasPair 'A' 'E' (py_upper (t.flatMap subst_char)) = true
    ∨ hasPair 'O' 'E' (py_upper (t.flatMap subst_char)) = true
    ∨ hasPair 'U' 'E' (py_upper (t.flatMap subst_char)) = true
    ∨ hasPair 'S' 'S' (py_upper (t.flatMap subst_char)) = true := by
  obtain ⟨pre, post, rfl⟩ := List.append_of_mem ha
  unfold py_upper
  rw [List.flatMap_append, List.flatMap_cons, List.map_append, List.map_append]
  simp only [is_special, Bool.or_eq_true, beq_iff_eq] at hsp
  rcases hsp with ((((((h | h) | h) | h) | h) | h) | h) <;> subst h
  · left
    have hm : (subst_char 'ä').map py_upper_char = ['A', 'E'] := by decide
    rw [hm]
    exact hasPair_append_left _ _ _ _ (hasPair_front 'A' 'E' _)
  · right; left
    have hm : (subst_char 'ö').map py_upper_char = ['O', 'E'] := by decide
    rw [hm]
    exact hasPair_append_left _ _ _ _ (hasPair_front 'O' 'E' _)
  · right; right; left
    have hm : (subst_char 'ü').map py_upper_char = ['U', 'E'] := by decide
    rw [hm]
    exact hasPair_append_left _ _ _ _ (hasPair_front 'U' 'E' _)
  · left
    have hm : (subst_char 'Ä').map py_upper_char = ['A', 'E'] := by decide
    rw [hm]
    exact hasPair_append_left _ _ _ _ (hasPair_front 'A' 'E' _)
  · right; left
    have hm : (subst_char 'Ö').map py_upper_char = ['O', 'E'] := by decide
    rw [hm]
    exact hasPair_append_left _ _ _ _ (hasPair_front 'O' 'E' _)
  · right; right; left
    have hm : (subst_char 'Ü').map py_upper_char = ['U', 'E'] := by decide
    rw [hm]
    exact hasPair_append_left _ _ _ _ (hasPair_front 'U' 'E' _)
  · right; right; right
    have hm : (subst_char 'ß').map py_upper_char = ['S', 'S'] := by decide
    rw [hm]
    exact hasPair_append_left _ _ _ _ (hasPair_front 'S' 'S' _)

theorem find_shortname_none_iff (u : List Char) :
    ∀ tbl : List (List Char × List Char),
      (find_shortname u tbl = none ↔ ∀ kv ∈ tbl, u ≠ kv.1) := by
  intro tbl
  induction tbl with
  | nil => simp [find_shortname]
  | cons kv rest ih =>
      obtain ⟨k, v⟩ := kv
      by_cases hk : u = k
      · subst hk
        simp [find_shortname]
      · simp [find_shortname, hk, ih]

/-- Substituting umlauts never creates a new match in the abbreviation table:
the two umlaut-bearing keys cannot appear (the output has no umlauts), and the
five umlaut-free keys contain none of the digraphs AE/OE/UE/SS that a
substitution introduces. -/
theorem find_upper_flatMap_none (t : List Char)
    (hnone : find_shortname (py_upper t) shortnames = none) :
    find_shortname (py_upper (t.flatMap subst_char)) shortnames = none := by
  rw [find_shortname_none_iff] at hnone ⊢
  by_cases hsp : ∀ a ∈ t, is_special a = false
  · rw [flatMap_subst_eq_self t hsp]
    exact hnone
  · push_neg at hsp
    obtain ⟨a, ha, haspec⟩ := hsp
    have hpair := flatMap_special_pair t a ha (by simpa using haspec)
    have hU : ∀ c ∈ py_upper (t.flatMap subst_char), is_special c = false := by
      intro c hc
      unfold py_upper at hc
      obtain ⟨b, hb, rfl⟩ := List.mem_map.mp hc
      exact upper_no_special b (flatMap_subst_no_special t b hb)
    intro kv hkv
    fin_cases hkv <;> intro heq
    · rcases hpair with hp | hp | hp | hp <;> rw [heq] at hp <;>
        exact absurd hp (by decide)
    · have hm : 'Ü' ∈ py_upper (t.flatMap subst_char) := by
        rw [heq]; decide
      exact absurd (hU _ hm) (by decide)
    · rcases hpair with hp | hp | hp | hp <;> rw [heq] at hp <;>
        exact absurd hp (by decide)
    · rcases hpair with hp | hp | hp | hp <;> rw [heq] at hp <;>
        exact absurd hp (by decide)
    · have hm : 'Ü' ∈ py_upper (t.flatMap subst_char) := by
        rw [heq]; decide
      exact absurd (hU _ hm) (by decide)
    · rcases hpair with hp | hp | hp | hp <;> rw [heq] at hp <;>
        exact absurd hp (by decide)
    · rcases hpair with hp | hp | hp | hp <;> rw [heq] at hp <;>
        exact absurd hp (by decide)

theorem find_shortname_mem_values (u v : List Char) :
    ∀ tbl : List (List Char × List Char),
      find_shortname u tbl = some v → v ∈ tbl.map Prod.snd := by
  intro tbl
  induction tbl with
  | nil => intro h; simp [find_shortname] at h
  | cons kv rest ih =>
      obtain ⟨k, w⟩ := kv
      intro h
      unfold find_shortname at h
      by_cases hk : u = k
      · rw [if_pos hk] at h
        simp at h
        simp [h]
      · rw [if_neg hk] at h
        simp [ih h]

theorem shorten_some (s : List Char) (hs : s ≠ []) :
    _shorten_destination (some s)
      = replace_umlauts
          (match find_shortname (py_upper (py_strip (before_comma s))) shortnames with
            | some v => v
            | none => py_strip (before_comma s)) := by
  simp [_shorten_destination, hs]

/-- `_shorten_destination` is idempotent. -/
theorem shorten_idem (x : Option (List Char)) :
    _shorten_destination (some (_shorten_destination x)) = _shorten_destination x := by
  cases x with
  | none => rfl
  | some s =>
      by_cases hs : s = []
      · subst hs; rfl
      rw [shorten_some s hs]
      cases hfind : find_shortname (py_upper (py_strip (before_comma s))) shortnames with
      | some v =>
          simp only [hfind]
          have hv := find_shortname_mem_values _ _ _ hfind
          simp only [shortnames, List.map] at hv
          fin_cases hv <;> decide
      | none =>
          simp only [hfind]
          have hyflat : replace_umlauts (py_strip (before_comma s))
              = (py_strip (before_comma s)).flatMap subst_char :=
            replace_umlauts_eq_flatMap _
          by_cases hy : replace_umlauts (py_strip (before_comma s)) = []
          · rw [hy]; rfl
          rw [shorten_some _ hy]
          have hcom : ∀ c ∈ replace_umlauts (py_strip (before_comma s)), c ≠ ',' := by
            intro c hc
            rw [hyflat, List.mem_flatMap] at hc
            obtain ⟨a, hat, hca⟩ := hc
            exact subst_char_not_comma a c
              (mem_before_comma _ a (mem_py_strip _ a hat)) hca
          have hh : ∀ c, (replace_umlauts (py_strip (before_comma s))).head? = some c →
              py_isspace c = false := by
            intro c hc
            rw [hyflat] at hc
            obtain ⟨a, hha, hmem⟩ := head?_flatMap_subst _ c hc
            exact subst_char_not_space a c (py_strip_head (before_comma s) a hha) hmem
          have hl : ∀ c, (replace_umlauts (py_strip (before_comma s))).getLast? = some c →
              py_isspace c = false := by
            intro c hc
            rw [hyflat] at hc
            obtain ⟨a, hha, hmem⟩ := getLast?_flatMap_subst _ c hc
            exact subst_char_not_space a c (py_strip_getLast (before_comma s) a hha) hmem
          rw [before_comma_eq_self _ hcom, py_strip_eq_self _ hh hl]
          have hfind2 : find_shortname
              (py_upper (replace_umlauts (py_strip (before_comma s)))) shortnames = none := by
            rw [hyflat]
            exact find_upper_flatMap_none _ hfind
          simp only [hfind2]
          exact replace_umlauts_eq_self _ (replace_umlauts_no_special _)

/-- Claim C4 (counterexample): the table long name `HÜTTELDORF` does not map
to its configured abbreviation `Hütteldorf` exactly — the umlaut replacement
runs after the substitution, so the output is `Huetteldorf`. -/
theorem huetteldorf_not_exact_abbreviation :
    _shorten_destination (some "HÜTTELDORF".data) ≠ "Hütteldorf".data
    ∧ _shorten_destination (some "HÜTTELDORF".data) = "Huetteldorf".data := by
  decide

/-- Claim C4 (amended): destination shortening is idempotent
(`shorten(shorten(x)) == shorten(x)` for every input, `None` included), and
every long name of the abbreviation table maps to its configured abbreviation
with umlauts transliterated (which is the abbreviation itself whenever it
contains no umlaut). -/
theorem shorten_destination_pure_spec :
    (∀ x : Option (List Char),
        _shorten_destination (some (_shorten_destination x)) = _shorten_destination x)
    ∧ (∀ kv ∈ shortnames, _shorten_destination (some kv.1) = replace_umlauts kv.2) := by
  refine ⟨shorten_idem, ?_⟩
  intro kv hkv
  fin_cases hkv <;> decide

/-- Witness for `shorten_destination_pure_spec` on the first table entry. -/
theorem shorten_destination_pure_spec_app :
    _shorten_destination (some "HEILIGENSTADT".data) = replace_umlauts "Heiligenst.".data :=
  shorten_destination_pure_spec.2 ("HEILIGENSTADT".data, "Heiligenst.".data) (by decide)

/-- Claim C10: `None` and the empty string shorten to the empty string, and no
character of any output of `_shorten_destination` is one of ä, ö, ü, Ä, Ö, Ü,
ß — in particular an abbreviation-table value containing an umlaut
(`Hütteldorf`) reaches the display transliterated, because the umlaut
replacement runs after the table substitution. -/
theorem shorten_destination_ascii :
    _shorten_destination none = []
    ∧ _shorten_destination (some []) = []
    ∧ _shorten_destination (some "HÜTTELDORF".data) = "Huetteldorf".data
    ∧ ∀ (x : Option (List Char)) (c : Char),
        c ∈ _shorten_destination x → is_special c = false := by
  refine ⟨rfl, rfl, by decide, ?_⟩
  intro x c hc
  cases x with
  | none => simp [_shorten_destination] at hc
  | some s =>
      by_cases hs : s = []
      · subst hs
        simp [_shorten_destination] at hc
      · rw [shorten_some s hs] at hc
        exact replace_umlauts_no_special _ c hc

/-- Witness for `shorten_destination_ascii` at a concrete input and output
character. -/
theorem shorten_destination_ascii_app : is_special 'H' = false :=
  shorten_destination_ascii.2.2.2 (some "HÜTTELDORF".data) 'H' (by decide)

/-- Witness for `update_arriving_animation_spec`: with no cached data an
animation tick changes nothing. -/
theorem update_arriving_animation_spec_app :
    update_arriving_animation true none = (true, false) :=
  (update_arriving_animation_spec true none).1 rfl

/-- Claim C7: every fetch failure mode is a normal failed fetch (`data =
None`) at the poll-loop boundary: an exception during the fetch; a non-200
HTTP status; transformed data failing validation (whether validation returns
false or itself raises).  In particular a stop without a `lines` key, and a
line without a `name` or without a `departures` key, make `validate_response`
return false.  No failure escapes `loopFetch`, which is total. -/
theorem fetch_failures_yield_none :
    (loopFetch .raises = none)
    ∧ (∀ (s : Nat) (v : JVal), s ≠ 200 → loopFetch (.http s v) = none)
    ∧ (∀ v : JVal, validate_response v = .ok false → loopFetch (.http 200 v) = none)
    ∧ (∀ (v : JVal) (e : Unit), validate_response v = .error e → loopFetch (.http 200 v) = none)
    ∧ (∀ (ts : JVal) (m : List (List Char × JVal)),
        jlookup "lines".data m = none →
        validate_response (.obj [("data".data, .arr [.obj m]), ("localeTimestamp".data, ts)])
          = .ok false)
    ∧ (∀ (ts : JVal) (lm : List (List Char × JVal)),
        jlookup "name".data lm = none ∨ jlookup "departures".data lm = none →
        validate_response (.obj [("data".data,
            .arr [.obj [("lines".data, .arr [.obj lm])]]), ("localeTimestamp".data, ts)])
          = .ok false) := by
  refine ⟨rfl, ?_, ?_, ?_, ?_, ?_⟩
  · intro s v hs
    simp [loopFetch, get_data, make_request, hs]
  · intro v hv
    simp [loopFetch, get_data, make_request, hv]
    rfl
  · intro v e hv
    simp [loopFetch, get_data, make_request, hv]
    rfl
  · intro ts m hm
    simp [validate_response, jlookup, validateStops, hm]
  · intro ts lm hlm
    rcases hlm with h | h <;>
      simp [validate_response, jlookup, validateStops, validateLines, h] <;> rfl

/-- Witness for `fetch_failures_yield_none`: an HTTP 500 yields `None`. -/
theorem fetch_failures_yield_none_app : loopFetch (.http 500 .null) = none :=
  fetch_failures_yield_none.2.1 500 .null (by decide)

/-! ### Line ordering: lemmas and claims -/

/-- Claim C2 (counterexample): with priority order `[]` and lines A/H, A/R,
B/R, the sorted order is A/R, B/R, A/H but the grouping renders A/R, A/H,
B/R — the rendered row order is not the sort-key order. -/
theorem render_order_not_sort_order :
    renderRows [] cexStops ≠ sortLines [] (cexStops.flatMap Stop.lines)
    ∧ sortLines [] (cexStops.flatMap Stop.lines) = [lineAR, lineBR, lineAH]
    ∧ renderRows [] cexStops = [lineAR, lineAH, lineBR] := by
  refine ⟨?_, by decide, by decide⟩
  decide

theorem firstSeen_of_nodup (l : List (List Char)) (h : l.Nodup) : firstSeen l = l := by
  suffices haux : ∀ (l acc : List (List Char)), l.Nodup → (∀ x ∈ l, x ∉ acc) →
      l.foldl (fun acc x => if x ∈ acc then acc else acc ++ [x]) acc = acc ++ l by
    simpa [firstSeen] using haux l [] h (by simp)
  intro l
  induction l with
  | nil => intro acc _ _; simp
  | cons x xs ih =>
      intro acc hnd hacc
      rw [List.foldl_cons, if_neg (hacc x (List.mem_cons_self x xs))]
      rw [ih (acc ++ [x]) (List.nodup_cons.mp hnd).2 ?_]
      · simp
      · intro y hy
        simp only [List.mem_append, List.mem_singleton]
        rintro (hya | hyx)
        · exact hacc y (List.mem_cons_of_mem x hy) hya
        · exact (List.nodup_cons.mp hnd).1 (hyx ▸ hy)

theorem flatMap_congr_mem {α β : Type} (l : List α) (f g : α → List β)
    (h : ∀ x ∈ l, f x = g x) : l.flatMap f = l.flatMap g := by
  induction l with
  | nil => rfl
  | cons a rest ih =>
      rw [List.flatMap_cons, List.flatMap_cons, h a (List.mem_cons_self a rest),
        ih (fun x hx => h x (List.mem_cons_of_mem a hx))]

/-- Grouping rows by name in first-occurrence order is the identity when all
names are distinct. -/
theorem flatMap_filter_self (l : List Line) (h : (l.map Line.name).Nodup) :
    (l.map Line.name).flatMap (fun n => l.filter (fun x => x.name = n)) = l := by
  induction l with
  | nil => rfl
  | cons a rest ih =>
      rw [List.map_cons, List.flatMap_cons]
      have hna : a.name ∉ rest.map Line.name := (List.nodup_cons.mp h).1
      have h1 : (a :: rest).filter (fun x => x.name = a.name) = [a] := by
        rw [List.filter_cons]
        simp only [decide_eq_true_eq]
        rw [if_pos trivial]
        have : rest.filter (fun x => x.name = a.name) = [] := by
          rw [List.filter_eq_nil_iff]
          intro x hx
          simp only [decide_eq_true_eq]
          intro hxa
          exact hna (hxa ▸ List.mem_map_of_mem Line.name hx)
        rw [this]
      have h2 : (rest.map Line.name).flatMap
            (fun n => (a :: rest).filter (fun x => x.name = n))
          = (rest.map Line.name).flatMap (fun n => rest.filter (fun x => x.name = n)) := by
        apply flatMap_congr_mem
        intro n hn
        rw [List.filter_cons]
        rw [if_neg ?_]
        simp only [decide_eq_true_eq]
        intro han
        exact hna (han ▸ hn)
      rw [h1, h2, ih (List.nodup_cons.mp h).2]
      rfl

/-- When all line names are pairwise distinct, the rendered rows are exactly
the stable-sorted rows. -/
theorem renderRows_eq_sortLines (po : List (List Char)) (stops : List Stop)
    (h : ((stops.flatMap Stop.lines).map Line.name).Nodup) :
    renderRows po stops = sortLines po (stops.flatMap Stop.lines) := by
  have hperm : List.Perm (sortLines po (stops.flatMap Stop.lines))
      (stops.flatMap Stop.lines) := by
    unfold sortLines
    have h1 := List.perm_insertionSort (decoratedLe po) (stops.flatMap Stop.lines).enum
    have h2 := h1.map Prod.snd
    rwa [List.enum_map_snd] at h2
  have hnod : ((sortLines po (stops.flatMap Stop.lines)).map Line.name).Nodup :=
    (List.Perm.nodup_iff (hperm.map Line.name)).mpr h
  simp only [renderRows]
  rw [firstSeen_of_nodup _ hnod]
  exact flatMap_filter_self _ hnod

set_option maxHeartbeats 1000000 in
/-- Claim C2 (amended): rows are rendered grouped by line name (groups in
first-occurrence order of the stable-sorted sequence, rows inside a group in
sorted order); whenever the line names are pairwise distinct this equals the
stable-sort order exactly, and in scenario A — three stops carrying lines 49,
N49, U4 with priority order `["49", "N49", "U4"]` — the rendered order is
49, N49, U4 for every one of the six input orders, regardless of all other
fields. -/
theorem render_order_spec :
    (∀ (po : List (List Char)) (stops : List Stop),
        ((stops.flatMap Stop.lines).map Line.name).Nodup →
          renderRows po stops = sortLines po (stops.flatMap Stop.lines))
    ∧ (∀ sn1 sd1 d1 t1 ds1 sn2 sd2 d2 t2 ds2 sn3 sd3 d3 t3 ds3,
        let s1 := mkStop sn1 sd1 "49".data d1 t1 ds1
        let s2 := mkStop sn2 sd2 "N49".data d2 t2 ds2
        let s3 := mkStop sn3 sd3 "U4".data d3 t3 ds3
        (renderRows scenarioPO [s1, s2, s3]).map Line.name = scenarioPO
        ∧ (renderRows scenarioPO [s1, s3, s2]).map Line.name = scenarioPO
        ∧ (renderRows scenarioPO [s2, s1, s3]).map Line.name = scenarioPO
        ∧ (renderRows scenarioPO [s2, s3, s1]).map Line.name = scenarioPO
        ∧ (renderRows scenarioPO [s3, s1, s2]).map Line.name = scenarioPO
        ∧ (renderRows scenarioPO [s3, s2, s1]).map Line.name = scenarioPO) := by
  refine ⟨renderRows_eq_sortLines, ?_⟩
  intro sn1 sd1 d1 t1 ds1 sn2 sd2 d2 t2 ds2 sn3 sd3 d3 t3 ds3
  exact ⟨rfl, rfl, rfl, rfl, rfl, rfl⟩

/-- Witness for `render_order_spec` on two distinct-named lines. -/
theorem render_order_spec_app :
    renderRows [] [{ name := [], diva := [], lines := [lineBR] },
                   { name := [], diva := [], lines := [lineAR] }]
      = sortLines [] [lineBR, lineAR] :=
  render_order_spec.1 []
    [{ name := [], diva := [], lines := [lineBR] },
     { name := [], diva := [], lines := [lineAR] }] (by decide)
